import Mathlib

/-!
Verification of the fusilli build tooling: the version resolver
(`build_tools/scripts/bump_deps.py`) and the environment composition
orchestrator (`plugins/hipdnn-plugin/build_tools/ThePebble.py`).

Shallow-embedding conventions:
- Python strings are Lean `String`s; parsing works on `String.data`.
- The regex class `\d` is modelled as an ASCII digit (`Char.isDigit`)
  and `$` as end of string; `.` matches any character except a newline.
- `sys.exit(1)` inside a resolver is modelled by an `Option` result
  whose `none` value stands for the non-zero process exit.
- Network probes (HTTP HEAD requests, fetching the pip release-links
  page) are external collaborators, modelled as boolean oracles or as
  an abstract page content string passed in as an argument.
-/

/-- Numeric value of a decimal digit character. -/
def digitVal (c : Char) : Nat := c.toNat - 48

/-- Value of a list of decimal digit characters, most significant first
(what `int(...)` returns on a regex group of digits). -/
def digitsToNat (ds : List Char) : Nat :=
  ds.foldl (fun acc c => 10 * acc + digitVal c) 0

/-- One greedy `\d+` regex group: the maximal leading run of digits and
the unconsumed rest.  Greedy matching coincides with maximal munch here
because every context following a digit group in the patterns below
starts with a non-digit. -/
def digitRun (cs : List Char) : List Char × List Char :=
  (cs.takeWhile Char.isDigit, cs.dropWhile Char.isDigit)

/-- Embedding of `re.match(r"(\d+)\.(\d+)\.(\d+)rc(\d+)", s)` from
`bump_deps.py`.  Returns the four numeric groups together with the
unconsumed suffix of the string (`re.match` anchors at the start only),
or `none` when there is no match at the start. -/
def parseVersionCore (cs : List Char) : Option (Nat × Nat × Nat × Nat × List Char) :=
  let p1 := digitRun cs
  if p1.1.isEmpty then none else
    match p1.2 with
    | '.' :: r2 =>
      let p2 := digitRun r2
      if p2.1.isEmpty then none else
        match p2.2 with
        | '.' :: r4 =>
          let p3 := digitRun r4
          if p3.1.isEmpty then none else
            match p3.2 with
            | 'r' :: 'c' :: r6 =>
              let p4 := digitRun r6
              if p4.1.isEmpty then none else
                some (digitsToNat p1.1, digitsToNat p2.1, digitsToNat p3.1, digitsToNat p4.1, p4.2)
            | _ => none
        | _ => none
    | _ => none

/-- Embedding of `_version_sort_key` (`bump_deps.py`): parse a version
string like `3.11.0rc20260301` into a sortable 4-tuple; strings with no
match at the start map to the zero tuple. -/
def version_sort_key (s : String) : Nat × Nat × Nat × Nat :=
  match parseVersionCore s.data with
  | some (a, b, c, d, _) => (a, b, c, d)
  | none => (0, 0, 0, 0)

/-- Python's `<` on 4-tuples of ints: strict lexicographic comparison. -/
def keyLT (x y : Nat × Nat × Nat × Nat) : Bool :=
  decide (x.1 < y.1) ||
    (decide (x.1 = y.1) &&
      (decide (x.2.1 < y.2.1) ||
        (decide (x.2.1 = y.2.1) &&
          (decide (x.2.2.1 < y.2.2.1) ||
            (decide (x.2.2.1 = y.2.2.1) && decide (x.2.2.2 < y.2.2.2))))))

/-- Python's `<=` on 4-tuples of ints (the order `list.sort` sorts by). -/
def keyLE (x y : Nat × Nat × Nat × Nat) : Bool :=
  keyLT x y || decide (x = y)

/-- The sort order used by `rc_versions.sort(key=_version_sort_key)`:
compare two version strings by their sort keys. -/
def vle (a b : String) : Prop :=
  keyLE (version_sort_key a) (version_sort_key b) = true

instance : DecidableRel vle := fun a b =>
  show Decidable (keyLE _ _ = true) from inferInstance

/-- Embedding of the tag filter in `find_latest_iree_with_wheel`:
`re.match(r"refs/tags/iree-(\d+\.\d+\.\d+rc\d+)$", line)`.  The literal
head must match, and the version group must consume the whole rest of
the line (the pattern is anchored at the end by `$`). -/
def tagToVersion (line : String) : Option String :=
  let head := ("refs/tags/iree-").data
  if line.data.take head.length = head then
    match parseVersionCore (line.data.drop head.length) with
    | some (_, _, _, _, []) => some ⟨line.data.drop head.length⟩
    | _ => none
  else none

/-- Substring test on character lists (Python's `needle in content`). -/
def containsSub : List Char → List Char → Bool
  | needle, [] => needle.isEmpty
  | needle, c :: t => needle.isPrefixOf (c :: t) || containsSub needle t

/-- Embedding of `verify_iree_wheel` (`bump_deps.py`): the probe succeeds
when the pip release-links page content contains the needle
`iree_base_compiler-{version}` (the page spells the package name with
underscores). -/
def verify_iree_wheel (content : String) (version : String) : Bool :=
  containsSub ("iree_base_compiler-" ++ version).data content.data

/-- The rc versions extracted from the `gh api` tag listing. -/
def ireeRcVersions (tagLines : List String) : List String :=
  tagLines.filterMap tagToVersion

/-- The candidate list `rc_versions[-2:][::-1]` after the ascending sort:
the (up to) two last elements of the sorted list, in reverse order. -/
def ireeCandidates (tagLines : List String) : List String :=
  let sorted := List.insertionSort vle (ireeRcVersions tagLines)
  (sorted.drop (sorted.length - 2)).reverse

/-- Embedding of `find_latest_iree_with_wheel` (`bump_deps.py`),
parameterized by the tag lines returned by the `gh api` call and by the
release-links page content.  `none` models `sys.exit(1)` (no rc tags
found, or no candidate with an available wheel). -/
def find_latest_iree_with_wheel (tagLines : List String) (content : String) :
    Option String :=
  if ireeRcVersions tagLines = [] then none
  else (ireeCandidates tagLines).find? (fun c => verify_iree_wheel content c)

/-- Embedding of `re.match(r"(.+?)(\d{8})$", current_version)` from
`find_latest_therock_version`: the version must be at least 9 characters
long, its last 8 characters must all be digits (they form the date
suffix), and the non-empty remainder before them (matched by `.+?`,
which cannot cross a newline) is the stable version head.  Returns the
two groups. -/
def parseTheRock (s : String) : Option (String × String) :=
  let cs := s.data
  if cs.length < 9 then none
  else
    let hd := cs.take (cs.length - 8)
    let suf := cs.drop (cs.length - 8)
    if suf.all Char.isDigit && hd.all (fun c => !(c == '\n')) then
      some (⟨hd⟩, ⟨suf⟩)
    else none

/-- Proleptic Gregorian leap-year rule, as used by `datetime.date`. -/
def isLeapYear (y : Nat) : Bool :=
  y % 4 == 0 && (y % 100 != 0 || y % 400 == 0)

/-- Number of days in a month, as used by `datetime.date`. -/
def daysInMonth (y m : Nat) : Nat :=
  if m == 2 then (if isLeapYear y then 29 else 28)
  else if m == 4 || m == 6 || m == 9 || m == 11 then 30
  else 31

/-- A calendar date (the `datetime` value truncated to a date). -/
structure Date where
  year : Nat
  month : Nat
  day : Nat
deriving DecidableEq

/-- `date - timedelta(days=1)` on valid calendar dates. -/
def prevDay (d : Date) : Date :=
  if d.day > 1 then ⟨d.year, d.month, d.day - 1⟩
  else if d.month > 1 then ⟨d.year, d.month - 1, daysInMonth d.year (d.month - 1)⟩
  else ⟨d.year - 1, 12, 31⟩

/-- Decimal digit character for a value below 10. -/
def digitChar (n : Nat) : Char := Char.ofNat (48 + n % 10)

/-- A number rendered as exactly two digits (zero-padded). -/
def pad2 (n : Nat) : List Char := [digitChar (n / 10), digitChar n]

/-- A number rendered as exactly four digits (zero-padded). -/
def pad4 (n : Nat) : List Char :=
  [digitChar (n / 1000), digitChar (n / 100), digitChar (n / 10), digitChar n]

/-- `date.strftime("%Y%m%d")` for four-digit years. -/
def fmtDate (d : Date) : String :=
  ⟨pad4 d.year ++ pad2 d.month ++ pad2 d.day⟩

/-- The TheRock CDN tarball URL probed for one candidate version. -/
def therockUrl (candidate : String) : String :=
  "https://rocm.nightlies.amd.com/tarball/therock-dist-linux-gfx94X-dcgpu-"
    ++ candidate ++ ".tar.gz"

/-- The candidate versions `{prefix}{date}` built by the
`for days_ago in range(3)` loop: today, yesterday and the day before
yesterday (UTC), most recent first. -/
def therockCandidates (hd : String) (today : Date) : List String :=
  [today, prevDay today, prevDay (prevDay today)].map (fun d => hd ++ fmtDate d)

/-- Embedding of `find_latest_therock_version` (`bump_deps.py`),
parameterized by the current pinned version, the current UTC date and a
boolean oracle for the HTTP HEAD presence probe on a CDN URL.  The
function is total: on an unparseable current version or when no probe
succeeds it returns the current version unchanged (the code prints a
warning and never exits non-zero here). -/
def find_latest_therock_version (current : String) (today : Date)
    (probe : String → Bool) : String :=
  match parseTheRock current with
  | none => current
  | some (hd, _) =>
    match (therockCandidates hd today).find? (fun c => probe (therockUrl c)) with
    | some c => c
    | none => current

/-- The URLs that the loop in `find_latest_therock_version` actually
issues a HEAD request for: every candidate up to and including the first
one whose probe succeeds (all three when none succeeds, none at all when
the current version is unparseable). -/
def therockProbesIssued (current : String) (today : Date)
    (probe : String → Bool) : List String :=
  match parseTheRock current with
  | none => []
  | some (hd, _) =>
    let urls := (therockCandidates hd today).map therockUrl
    urls.takeWhile (fun u => !probe u) ++ (urls.dropWhile (fun u => !probe u)).take 1

/-- Whitespace inside a config line (space or tab). -/
def isBlankChar (c : Char) : Bool := c == ' ' || c == '\t'

/-- Strip leading and trailing whitespace from a line. -/
def trimChars (cs : List Char) : List Char :=
  ((cs.dropWhile isBlankChar).reverse.dropWhile isBlankChar).reverse

/-- Split a character stream at newline characters. -/
def splitLinesAux : List Char → List Char → List (List Char)
  | [], acc => [acc.reverse]
  | '\n' :: t, acc => acc.reverse :: splitLinesAux t []
  | c :: t, acc => splitLinesAux t (c :: acc)

/-- The lines of a file's contents. -/
def splitLines (cs : List Char) : List (List Char) := splitLinesAux cs []

/-- Characters allowed in a TOML bare key or table name. -/
def bareKeyChar (c : Char) : Bool :=
  c.isAlphanum || c == '_' || c == '-'

/-- The result of classifying one config line. -/
inductive TomlLine where
  | blank : TomlLine
  | table (name : String) : TomlLine
  | pair (key value : String) : TomlLine
deriving DecidableEq

/-- Classify one line of the config file: blank or comment, a `[table]`
header, or a `key = "value"` assignment.  `none` means the line is
malformed (the external TOML parser would raise). -/
def classifyLine (cs : List Char) : Option TomlLine :=
  let t := trimChars cs
  match t with
  | [] => some TomlLine.blank
  | '#' :: _ => some TomlLine.blank
  | '[' :: rest =>
    if rest.getLast? = some ']' then
      let name := trimChars rest.dropLast
      if name ≠ [] ∧ name.all bareKeyChar then some (TomlLine.table ⟨name⟩)
      else none
    else none
  | _ =>
    let k := t.takeWhile (fun c => !(c == '='))
    match t.dropWhile (fun c => !(c == '=')) with
    | '=' :: vraw =>
      let key := trimChars k
      match trimChars vraw with
      | '"' :: vrest =>
        if key ≠ [] ∧ key.all bareKeyChar ∧ vrest.getLast? = some '"'
            ∧ (vrest.dropLast).all (fun c => !(c == '"')) then
          some (TomlLine.pair ⟨key⟩ ⟨vrest.dropLast⟩)
        else none
      | _ => none
    | _ => none

/-- The structured record produced by parsing a config file: the table
names seen, plus the `(table, key) ↦ value` assignments (keys outside
any table use the empty table name). -/
structure TomlDoc where
  sections : List String
  pairs : List ((String × String) × String)
deriving DecidableEq

/-- Fold the classified lines into a `TomlDoc`, rejecting duplicate
table headers and duplicate keys as the external TOML parser does. -/
def parseTomlLoop : List (List Char) → String → TomlDoc → Option TomlDoc
  | [], _, acc => some acc
  | l :: ls, tbl, acc =>
    match classifyLine l with
    | none => none
    | some TomlLine.blank => parseTomlLoop ls tbl acc
    | some (TomlLine.table s) =>
      if acc.sections.contains s then none
      else parseTomlLoop ls s { acc with sections := acc.sections ++ [s] }
    | some (TomlLine.pair k v) =>
      if (acc.pairs.lookup (tbl, k)).isSome then none
      else parseTomlLoop ls tbl { acc with pairs := acc.pairs ++ [((tbl, k), v)] }

/-- Model of the external `tomllib.load` on the flat
`[table]` / `key = "string"` subset of TOML that
`thepebble_config.toml` uses.  `none` models a parse exception. -/
def parseToml (text : String) : Option TomlDoc :=
  parseTomlLoop (splitLines text.data) "" ⟨[], []⟩

/-- Model of Python `dict` equality on parsed configs: the same table
names and the same key/value assignments, independent of textual order
in the file. -/
def dictEq (d1 d2 : TomlDoc) : Bool :=
  d1.sections.all (fun s => d2.sections.contains s) &&
  d2.sections.all (fun s => d1.sections.contains s) &&
  d1.pairs.all (fun p => d2.pairs.lookup p.1 == some p.2) &&
  d2.pairs.all (fun p => d1.pairs.lookup p.1 == some p.2)

/-- The observable cache state of ThePebble between runs: the contents
of `_copy_of_thepebble_config_for_cache_invalidation.toml` inside
`$HOME/.cache/ThePebble`, or `none` when the file is absent.  The file
lives inside the cache directory, so removing the directory removes it. -/
structure PebbleState where
  fingerprint : Option String
deriving DecidableEq

/-- The load step `config = load_config(); versions = config["versions"]`
that the `--setup` branch of `main` performs before removing the cache
directory: the config file must parse and must contain a `[versions]`
table.  `none` models the exception (TOML error or `KeyError`) that
aborts the run before `RESET`. -/
def setupLoad (text : String) : Option TomlDoc :=
  match parseToml text with
  | none => none
  | some d => if d.sections.contains "versions" then some d else none

/-- Embedding of the `--setup` branch of `main` (`ThePebble.py`): load
the config (aborting before `RESET` on failure), remove the cache
directory (and with it any prior fingerprint), run the setup stages in
order (clone TheRock + venv, install hip, install integration tests,
build hipDNN, clone IREE, build fusilli, write presets, local env) —
each stage is an external call whose success is one entry of `stages`,
and the first failure aborts the run — and only after every stage
succeeded copy the config file into the cache as the new fingerprint.
Returns the final cache state and whether the run exited successfully. -/
def run_setup (st : PebbleState) (configText : String) (stages : List Bool) :
    PebbleState × Bool :=
  match setupLoad configText with
  | none => (st, false)
  | some _ =>
    if stages.all (fun b => b) then (⟨some configText⟩, true)
    else (⟨none⟩, false)

/-- Embedding of `validate_config` (`ThePebble.py`), the gate run by the
`--ci-install-and-test-fusilli-plugin` entry point: fail when the cached
fingerprint file is absent, when either file fails to parse, or when the
two parsed configs are not equal as dicts; pass otherwise.  `false`
models `sys.exit` with an error message. -/
def validate_config (fingerprint : Option String) (currentText : String) : Bool :=
  match fingerprint with
  | none => false
  | some cachedText =>
    match parseToml currentText, parseToml cachedText with
    | some cur, some cached => dictEq cur cached
    | _, _ => false

/-- The two primary operations of ThePebble's CLI. -/
inductive PebbleOp where
  | setup : PebbleOp
  | ciInstallAndTest : PebbleOp
deriving DecidableEq

/-- Embedding of the argument dispatch in `main` (`ThePebble.py`): with
neither flag set the program prints help and exits 1 (`none`); otherwise
it runs the `--setup` operation if requested, then the
`--ci-install-and-test-fusilli-plugin` operation if requested, in that
order.  The returned list is the sequence of operations executed. -/
def main_dispatch (setupFlag ciFlag : Bool) : Option (List PebbleOp) :=
  if !setupFlag && !ciFlag then none
  else some ((if setupFlag then [PebbleOp.setup] else []) ++
             (if ciFlag then [PebbleOp.ciInstallAndTest] else []))

/-- Merge mode of an artifact-fetch step into the shared dist directory:
`install_rocm_from_artifacts.py` wipes its `--output-dir` first
(`replace`), `fetch_artifacts.py --flatten` merges into the existing
directory structure without deleting siblings (`flatten`). -/
inductive MergeMode where
  | replace : MergeMode
  | flatten : MergeMode
deriving DecidableEq

/-- One artifact-fetch step of the dependency-install sequence. -/
structure FetchStep where
  name : String
  mode : MergeMode
deriving DecidableEq

/-- The artifact-fetch steps that write into the shared
`$HOME/.cache/ThePebble/dist` directory, in the order the `--setup`
branch of `main` executes them: `install_hip` first runs
`install_rocm_from_artifacts.py --base-only` (which wipes the output
directory), then `fetch_artifacts.py --flatten amd-llvm_dev`; after
that, `install_hipdnn_integration_tests` runs
`fetch_artifacts.py --flatten hipdnn-integration-tests_test`. -/
def dependencyInstallSequence : List FetchStep :=
  [⟨"rocm-sdk base (install_rocm_from_artifacts --base-only)", MergeMode.replace⟩,
   ⟨"amd-llvm_dev (fetch_artifacts --flatten)", MergeMode.flatten⟩,
   ⟨"hipdnn-integration-tests_test (fetch_artifacts --flatten)", MergeMode.flatten⟩]

/-- Abstract semantics of one fetch step on the set of files present in
the shared dist directory: `replace` wipes the destination and leaves
exactly its own payload, `flatten` adds its payload keeping siblings. -/
def applyStep (payload : Finset String) : MergeMode → Finset String → Finset String
  | MergeMode.replace, _ => payload
  | MergeMode.flatten, d => d ∪ payload

/-- Run a sequence of fetch steps (each a merge mode with its payload of
files) over the shared directory state. -/
def runSeq (steps : List (MergeMode × Finset String)) (d : Finset String) :
    Finset String :=
  steps.foldl (fun acc s => applyStep s.2 s.1 acc) d

/-- The persisted `version.json` record: the two pinned project versions
plus whatever other fields the file holds. -/
structure VersionJson where
  iree : String
  therock : String
  rest : List (String × String)
deriving DecidableEq

/-- Embedding of steps 3–4 of `main` (`bump_deps.py`): compare the
resolved versions with the pinned ones, update only the fields that
changed, and call `write_version_json` only when at least one changed.
Returns the resulting persisted record and whether a write happened. -/
def compare_and_persist (data : VersionJson) (latestIree latestTherock : String) :
    VersionJson × Bool :=
  let ireeChanged := data.iree != latestIree
  let therockChanged := data.therock != latestTherock
  if !ireeChanged && !therockChanged then (data, false)
  else
    let d1 := if ireeChanged then { data with iree := latestIree } else data
    let d2 := if therockChanged then { d1 with therock := latestTherock } else d1
    (d2, true)

/-- Number of `write_version_json` calls made by running
`compare_and_persist` twice in a row with the same resolved versions. -/
def compareAndPersistTwiceWrites (data : VersionJson)
    (latestIree latestTherock : String) : Nat :=
  let r1 := compare_and_persist data latestIree latestTherock
  let r2 := compare_and_persist r1.1 latestIree latestTherock
  (if r1.2 then 1 else 0) + (if r2.2 then 1 else 0)

/-- Tag lines for the concrete primary-resolution scenario of the spec. -/
def c2TagLines : List String :=
  ["refs/tags/iree-3.10.0rc20251201",
   "refs/tags/iree-3.11.0rc20260301",
   "refs/tags/iree-3.11.0rc20260302"]

/-- Release-links page content on which the wheel probe succeeds only
for version `3.11.0rc20260301`. -/
def c2PageContent : String :=
  "<html><a href=x>iree_base_compiler-3.11.0rc20260301-py3-none-any.whl</a></html>"

/-- HEAD-probe oracle that succeeds only for the TheRock tarball of
version `7.12.0a20260227`. -/
def c4Probe : String → Bool := fun u => u == therockUrl "7.12.0a20260227"

/-- A composition config file text with a `[versions]` table. -/
def cfgTextA : String :=
  "[versions]\nhip_run_id = \"123\"\niree_git_tag = \"iree-3.10.0rc20251201\"\n"

/-- The same configuration as `cfgTextA` up to formatting: a comment, a
blank line, different key order, extra spaces.  Parses to an equal dict. -/
def cfgTextB : String :=
  "# pinned versions\n[versions]\n\niree_git_tag = \"iree-3.10.0rc20251201\"\nhip_run_id   = \"123\"\n"

/-- A configuration that differs from `cfgTextA` structurally (a changed
`hip_run_id` value). -/
def cfgTextC : String :=
  "[versions]\nhip_run_id = \"124\"\niree_git_tag = \"iree-3.10.0rc20251201\"\n"

theorem keyLE_total (x y : Nat × Nat × Nat × Nat) :
    keyLE x y = true ∨ keyLE y x = true := by
  obtain ⟨a1, b1, c1, d1⟩ := x
  obtain ⟨a2, b2, c2, d2⟩ := y
  simp only [keyLE, keyLT, Bool.or_eq_true, Bool.and_eq_true, decide_eq_true_eq,
    Prod.mk.injEq]
  omega

theorem keyLE_trans (x y z : Nat × Nat × Nat × Nat)
    (hxy : keyLE x y = true) (hyz : keyLE y z = true) : keyLE x z = true := by
  obtain ⟨a1, b1, c1, d1⟩ := x
  obtain ⟨a2, b2, c2, d2⟩ := y
  obtain ⟨a3, b3, c3, d3⟩ := z
  simp only [keyLE, keyLT, Bool.or_eq_true, Bool.and_eq_true, decide_eq_true_eq,
    Prod.mk.injEq] at hxy hyz ⊢
  omega

theorem takeWhile_digits_append (ds rest : List Char)
    (hds : ds.all Char.isDigit = true)
    (hrest : ∀ c, rest.head? = some c → c.isDigit = false) :
    (ds ++ rest).takeWhile Char.isDigit = ds := by
  induction ds with
  | nil =>
    cases rest with
    | nil => rfl
    | cons c t => simp [List.takeWhile_cons, hrest c rfl]
  | cons d ds ih =>
    simp only [List.all_cons, Bool.and_eq_true] at hds
    simp [List.takeWhile_cons, hds.1, ih hds.2]

theorem dropWhile_digits_append (ds rest : List Char)
    (hds : ds.all Char.isDigit = true)
    (hrest : ∀ c, rest.head? = some c → c.isDigit = false) :
    (ds ++ rest).dropWhile Char.isDigit = rest := by
  induction ds with
  | nil =>
    cases rest with
    | nil => rfl
    | cons c t => simp [List.dropWhile_cons, hrest c rfl]
  | cons d ds ih =>
    simp only [List.all_cons, Bool.and_eq_true] at hds
    simp [List.dropWhile_cons, hds.1, ih hds.2]

theorem digitRun_append (ds rest : List Char)
    (hds : ds.all Char.isDigit = true)
    (hrest : ∀ c, rest.head? = some c → c.isDigit = false) :
    digitRun (ds ++ rest) = (ds, rest) := by
  simp [digitRun, takeWhile_digits_append ds rest hds hrest,
    dropWhile_digits_append ds rest hds hrest]

theorem parseVersionCore_eq_of (cs g1 r2 g2 r4 g3 r6 g4 r7 : List Char)
    (h1 : digitRun cs = (g1, '.' :: r2)) (hg1 : g1 ≠ [])
    (h2 : digitRun r2 = (g2, '.' :: r4)) (hg2 : g2 ≠ [])
    (h3 : digitRun r4 = (g3, 'r' :: 'c' :: r6)) (hg3 : g3 ≠ [])
    (h4 : digitRun r6 = (g4, r7)) (hg4 : g4 ≠ []) :
    parseVersionCore cs
      = some (digitsToNat g1, digitsToNat g2, digitsToNat g3, digitsToNat g4, r7) := by
  obtain ⟨b1, u1, rfl⟩ : ∃ a t, g1 = a :: t := by
    cases g1 with | nil => exact absurd rfl hg1 | cons a t => exact ⟨a, t, rfl⟩
  obtain ⟨b2, u2, rfl⟩ : ∃ a t, g2 = a :: t := by
    cases g2 with | nil => exact absurd rfl hg2 | cons a t => exact ⟨a, t, rfl⟩
  obtain ⟨b3, u3, rfl⟩ : ∃ a t, g3 = a :: t := by
    cases g3 with | nil => exact absurd rfl hg3 | cons a t => exact ⟨a, t, rfl⟩
  obtain ⟨b4, u4, rfl⟩ : ∃ a t, g4 = a :: t := by
    cases g4 with | nil => exact absurd rfl hg4 | cons a t => exact ⟨a, t, rfl⟩
  simp [parseVersionCore, h1, h2, h3, h4]

theorem parseVersionCore_append (d1 d2 d3 d4 rest : List Char)
    (hne1 : d1 ≠ []) (hne2 : d2 ≠ []) (hne3 : d3 ≠ []) (hne4 : d4 ≠ [])
    (ha1 : d1.all Char.isDigit = true) (ha2 : d2.all Char.isDigit = true)
    (ha3 : d3.all Char.isDigit = true) (ha4 : d4.all Char.isDigit = true)
    (hrest : ∀ c, rest.head? = some c → c.isDigit = false) :
    parseVersionCore (d1 ++ ('.' :: (d2 ++ ('.' :: (d3 ++ ('r' :: ('c' :: (d4 ++ rest))))))))
      = some (digitsToNat d1, digitsToNat d2, digitsToNat d3, digitsToNat d4, rest) := by
  have hdot : ∀ (x : List Char) c, ('.' :: x).head? = some c → c.isDigit = false := by
    intro x c hc
    rw [List.head?_cons, Option.some.injEq] at hc
    subst hc
    decide
  have hr : ∀ (x : List Char) c, ('r' :: x).head? = some c → c.isDigit = false := by
    intro x c hc
    rw [List.head?_cons, Option.some.injEq] at hc
    subst hc
    decide
  exact parseVersionCore_eq_of _ d1 _ d2 _ d3 _ d4 rest
    (digitRun_append d1 ('.' :: (d2 ++ ('.' :: (d3 ++ ('r' :: ('c' :: (d4 ++ rest))))))) ha1 (hdot _)) hne1
    (digitRun_append d2 ('.' :: (d3 ++ ('r' :: ('c' :: (d4 ++ rest))))) ha2 (hdot _)) hne2
    (digitRun_append d3 ('r' :: ('c' :: (d4 ++ rest))) ha3 (hr _)) hne3
    (digitRun_append d4 rest ha4 hrest) hne4

/-- C7 (amended): every version string with no pattern match at the
start parses to the zero ordinal `(0,0,0,0)`; the zero ordinal sorts at
or below the ordinal of every version string, and strictly below every
ordinal other than `(0,0,0,0)` itself.  ("Strictly below every valid
version" fails only for pattern-matching strings whose numeric groups
are all zero, such as `0.0.0rc0`; see the counterexample.) -/
theorem c7_zero_ordinal :
    (∀ s : String, parseVersionCore s.data = none → version_sort_key s = (0, 0, 0, 0)) ∧
    (∀ s : String, keyLE (0, 0, 0, 0) (version_sort_key s) = true) ∧
    (∀ s : String, version_sort_key s ≠ (0, 0, 0, 0) →
      keyLT (0, 0, 0, 0) (version_sort_key s) = true) := by
  refine ⟨?_, ?_, ?_⟩
  · intro s h
    simp [version_sort_key, h]
  · intro s
    generalize version_sort_key s = k
    obtain ⟨a, b, c, d⟩ := k
    simp only [keyLE, keyLT, Bool.or_eq_true, Bool.and_eq_true, decide_eq_true_eq,
      Prod.mk.injEq]
    omega
  · intro s h
    generalize hk : version_sort_key s = k at h ⊢
    obtain ⟨a, b, c, d⟩ := k
    simp only [ne_eq, Prod.mk.injEq, not_and] at h
    simp only [keyLT, Bool.or_eq_true, Bool.and_eq_true, decide_eq_true_eq,
      Prod.mk.injEq]
    by_cases h0 : a = 0 <;> by_cases h1 : b = 0 <;> by_cases h2 : c = 0 <;> omega

/-- C7 counterexample: `0.0.0rc0` matches the version pattern (fully,
and at the start), yet its sort key is the zero ordinal itself, so the
zero ordinal does not sort strictly below the ordinal of every
pattern-matching version string. -/
theorem c7_counterexample :
    parseVersionCore ("0.0.0rc0").data = some (0, 0, 0, 0, []) ∧
    version_sort_key "0.0.0rc0" = (0, 0, 0, 0) ∧
    keyLT (0, 0, 0, 0) (version_sort_key "0.0.0rc0") = false := by decide

/-- C7 witness: a malformed string maps to the zero ordinal, and the
zero ordinal sorts strictly below a genuine version's ordinal. -/
theorem c7_witness :
    version_sort_key "not-a-version" = (0, 0, 0, 0) ∧
    keyLT (0, 0, 0, 0) (version_sort_key "3.11.0rc20260301") = true :=
  ⟨c7_zero_ordinal.1 "not-a-version" (by decide),
   c7_zero_ordinal.2.2 "3.11.0rc20260301" (by decide)⟩

/-- C10 (amended): `_version_sort_key` matches the pattern only at the
start of the string and is not anchored at the end: every string that
begins with a valid `major.minor.patch` + `rc` + candidate prefix
followed by trailing characters that do not start with a digit (such as
`3.11.0rc20260301.post1`) parses to the ordinal of that prefix; when
the trailing characters start with a digit they extend the candidate
group instead (see the counterexample).  The zero ordinal is produced
only when the pattern fails to match at the start of the string or when
every matched group is zero. -/
theorem c10_prefix_parsing :
    (∀ d1 d2 d3 d4 rest : List Char,
      d1 ≠ [] → d2 ≠ [] → d3 ≠ [] → d4 ≠ [] →
      d1.all Char.isDigit = true → d2.all Char.isDigit = true →
      d3.all Char.isDigit = true → d4.all Char.isDigit = true →
      (∀ c, rest.head? = some c → c.isDigit = false) →
      version_sort_key ⟨d1 ++ ('.' :: (d2 ++ ('.' :: (d3 ++ ('r' :: ('c' :: (d4 ++ rest)))))))⟩
        = (digitsToNat d1, digitsToNat d2, digitsToNat d3, digitsToNat d4)) ∧
    (∀ s : String, version_sort_key s = (0, 0, 0, 0) →
      parseVersionCore s.data = none ∨
        ∃ r, parseVersionCore s.data = some (0, 0, 0, 0, r)) := by
  constructor
  · intro d1 d2 d3 d4 rest hne1 hne2 hne3 hne4 ha1 ha2 ha3 ha4 hrest
    have h := parseVersionCore_append d1 d2 d3 d4 rest hne1 hne2 hne3 hne4
      ha1 ha2 ha3 ha4 hrest
    simp [version_sort_key, h]
  · intro s h
    cases hp : parseVersionCore s.data with
    | none => exact Or.inl rfl
    | some v =>
      obtain ⟨a, b, c, d, r⟩ := v
      have hv : version_sort_key s = (a, b, c, d) := by simp [version_sort_key, hp]
      rw [hv] at h
      simp only [Prod.mk.injEq] at h
      obtain ⟨rfl, rfl, rfl, rfl⟩ := h
      exact Or.inr ⟨r, rfl⟩

/-- C10 counterexample: the claim's "arbitrary trailing characters"
fails when the trailing characters start with a digit: `1.2.3rc45`
begins with the valid prefix `1.2.3rc4` followed by `5`, but it parses
to `(1,2,3,45)` — the trailing digit extends the candidate group — not
to the prefix's ordinal `(1,2,3,4)`.  Also, the zero ordinal is not
produced only on match failure: `0.0.0rc0` matches at the start and
still produces the zero ordinal. -/
theorem c10_counterexample :
    ("1.2.3rc45" = "1.2.3rc4" ++ "5") ∧
    parseVersionCore ("1.2.3rc4").data = some (1, 2, 3, 4, []) ∧
    version_sort_key "1.2.3rc45" = (1, 2, 3, 45) ∧
    version_sort_key "1.2.3rc45" ≠ (1, 2, 3, 4) ∧
    parseVersionCore ("0.0.0rc0").data ≠ none ∧
    version_sort_key "0.0.0rc0" = (0, 0, 0, 0) :=
  ⟨by decide, by decide, by decide, by decide, by decide, by decide⟩

/-- C10 witness: the prefix-parsing statement applied to the concrete
string `1.2.3rc4.post1`, and the zero-ordinal statement applied to a
concrete non-matching string. -/
theorem c10_witness :
    version_sort_key "1.2.3rc4.post1" = (1, 2, 3, 4) ∧
    (parseVersionCore ("xyz").data = none ∨
      ∃ r, parseVersionCore ("xyz").data = some (0, 0, 0, 0, r)) := by
  constructor
  · have h := c10_prefix_parsing.1 ['1'] ['2'] ['3'] ['4'] ('.' :: ("post1").data)
      (by decide) (by decide) (by decide) (by decide)
      (by decide) (by decide) (by decide) (by decide)
      (by
        intro c hc
        rw [List.head?_cons, Option.some.injEq] at hc
        subst hc
        decide)
    have e : (⟨['1'] ++ ('.' :: (['2'] ++ ('.' :: (['3'] ++ ('r' :: ('c' :: (['4'] ++ ('.' :: ("post1").data))))))))⟩ : String)
        = "1.2.3rc4.post1" := by decide
    rw [e] at h
    exact h
  · exact c10_prefix_parsing.2 "xyz" (by decide)

/-- C9 counterexample: passing both `--setup` and
`--ci-install-and-test-fusilli-plugin` in one invocation is not
rejected — `main` runs full setup followed by build-and-test. -/
theorem c9_counterexample :
    main_dispatch true true = some [PebbleOp.setup, PebbleOp.ciInstallAndTest] ∧
    main_dispatch true true ≠ none := by decide

/-- C9 (amended): the two primary operations are selected by
independent flags; selecting neither is rejected (help text and exit 1),
selecting one runs exactly that operation, and selecting both is not
rejected: the invocation executes full setup followed by build-and-test
in sequence. -/
theorem c9_cli_dispatch :
    main_dispatch false false = none ∧
    main_dispatch true false = some [PebbleOp.setup] ∧
    main_dispatch false true = some [PebbleOp.ciInstallAndTest] ∧
    main_dispatch true true = some [PebbleOp.setup, PebbleOp.ciInstallAndTest] := by
  decide

/-- C6 (amended): `compare_and_persist` writes the persisted record if
and only if at least one of the two project versions differs from its
prior pinned value, updating only the fields that differ and leaving
every other field untouched; a second run with the same resolved values
never writes, so running it twice performs exactly one write (the first
run) when at least one version differed initially — and zero writes in
both runs when nothing differed. -/
theorem c6_compare_and_persist (data : VersionJson) (li lt : String) :
    ((compare_and_persist data li lt).2 = true ↔ (data.iree ≠ li ∨ data.therock ≠ lt)) ∧
    (compare_and_persist data li lt).1 = ⟨li, lt, data.rest⟩ ∧
    (compare_and_persist (compare_and_persist data li lt).1 li lt).2 = false ∧
    ((data.iree ≠ li ∨ data.therock ≠ lt) → compareAndPersistTwiceWrites data li lt = 1) ∧
    (data.iree = li → data.therock = lt → compareAndPersistTwiceWrites data li lt = 0) := by
  obtain ⟨di, dt, dr⟩ := data
  by_cases h1 : di = li <;> by_cases h2 : dt = lt <;>
    simp_all [compare_and_persist, compareAndPersistTwiceWrites, bne]

/-- C6 counterexample: when the pinned record already equals the
resolved versions, running `compare_and_persist` twice performs zero
writes, not "exactly one write (the first run)". -/
theorem c6_counterexample :
    compareAndPersistTwiceWrites
        ⟨"3.10.0rc20251201", "7.12.0a20260228", []⟩
        "3.10.0rc20251201" "7.12.0a20260228" = 0 ∧
    compareAndPersistTwiceWrites
        ⟨"3.10.0rc20251201", "7.12.0a20260228", []⟩
        "3.10.0rc20251201" "7.12.0a20260228" ≠ 1 := by decide

/-- C6 witness: with a changed primary version, the first run writes
(and produces the updated record) and the runs-twice count is one. -/
theorem c6_witness :
    (compare_and_persist ⟨"3.10.0rc20251201", "7.12.0a20260228", [("k", "v")]⟩
      "3.11.0rc20260301" "7.12.0a20260228").1
      = ⟨"3.11.0rc20260301", "7.12.0a20260228", [("k", "v")]⟩ ∧
    compareAndPersistTwiceWrites ⟨"3.10.0rc20251201", "7.12.0a20260228", [("k", "v")]⟩
      "3.11.0rc20260301" "7.12.0a20260228" = 1 :=
  ⟨(c6_compare_and_persist ⟨"3.10.0rc20251201", "7.12.0a20260228", [("k", "v")]⟩
      "3.11.0rc20260301" "7.12.0a20260228").2.1,
   (c6_compare_and_persist ⟨"3.10.0rc20251201", "7.12.0a20260228", [("k", "v")]⟩
      "3.11.0rc20260301" "7.12.0a20260228").2.2.2.1 (Or.inl (by decide))⟩

/-- C5: in the `--setup` dependency-install sequence the single
replace-merge-mode source (the Hip base install, which wipes the dist
directory) runs before both flatten-merge-mode sources that write into
the same dist directory (the `amd-llvm_dev` fetch and the hipDNN
integration-test fetch); under the abstract replace/flatten semantics
the executed order preserves every source's files, while running a
replace source after a flatten source deletes the flatten source's
distinct files. -/
theorem c5_replace_before_flatten :
    dependencyInstallSequence.map FetchStep.mode
      = [MergeMode.replace, MergeMode.flatten, MergeMode.flatten] ∧
    (∀ i j : Fin dependencyInstallSequence.length,
      (dependencyInstallSequence.get i).mode = MergeMode.replace →
      (dependencyInstallSequence.get j).mode = MergeMode.flatten →
      (i : Nat) < (j : Nat)) ∧
    (∀ H L T : Finset String,
      runSeq ((dependencyInstallSequence.map FetchStep.mode).zip [H, L, T]) ∅
        = H ∪ L ∪ T) ∧
    (∀ A B : Finset String,
      runSeq [(MergeMode.replace, A), (MergeMode.flatten, B)] ∅ = A ∪ B ∧
      runSeq [(MergeMode.flatten, B), (MergeMode.replace, A)] ∅ = A) ∧
    (∀ (A B : Finset String) (f : String),
      ((f ∈ A ∨ f ∈ B) →
        f ∈ runSeq [(MergeMode.replace, A), (MergeMode.flatten, B)] ∅) ∧
      (f ∈ B → f ∉ A →
        f ∉ runSeq [(MergeMode.flatten, B), (MergeMode.replace, A)] ∅)) := by
  refine ⟨rfl, by decide, ?_, ?_, ?_⟩
  · intro H L T
    simp [dependencyInstallSequence, runSeq, applyStep, Finset.union_assoc]
  · intro A B
    constructor
    · simp [runSeq, applyStep]
    · simp [runSeq, applyStep]
  · intro A B f
    constructor
    · intro h
      simp [runSeq, applyStep, Finset.mem_union]
      tauto
    · intro hB hA
      simp [runSeq, applyStep]
      exact hA

/-- C5 witness: with one concrete file from each source, the executed
order keeps both files and the reversed order deletes the flatten
source's file. -/
theorem c5_witness :
    ("llvm.h" ∈ runSeq [(MergeMode.replace, {"hip.so"}), (MergeMode.flatten, {"llvm.h"})]
      (∅ : Finset String)) ∧
    ("hip.so" ∈ runSeq [(MergeMode.replace, {"hip.so"}), (MergeMode.flatten, {"llvm.h"})]
      (∅ : Finset String)) ∧
    ("llvm.h" ∉ runSeq [(MergeMode.flatten, {"llvm.h"}), (MergeMode.replace, {"hip.so"})]
      (∅ : Finset String)) ∧
    ((0 : Nat) < 1) :=
  ⟨((c5_replace_before_flatten.2.2.2.2 {"hip.so"} {"llvm.h"} "llvm.h").1 (Or.inr (by decide))),
   ((c5_replace_before_flatten.2.2.2.2 {"hip.so"} {"llvm.h"} "hip.so").1 (Or.inl (by decide))),
   ((c5_replace_before_flatten.2.2.2.2 {"hip.so"} {"llvm.h"} "llvm.h").2 (by decide) (by decide)),
   (c5_replace_before_flatten.2.1 ⟨0, by decide⟩ ⟨1, by decide⟩ (by decide) (by decide))⟩

theorem parseTheRock_append (hd suf : String) (h8 : suf.data.length = 8)
    (hdig : suf.data.all Char.isDigit = true) (hne : hd.data ≠ [])
    (hnn : hd.data.all (fun c => !(c == '\n')) = true) :
    parseTheRock (hd ++ suf) = some (hd, suf) := by
  have hd1 : (hd ++ suf).data = hd.data ++ suf.data := rfl
  have hlen : ¬ ((hd.data ++ suf.data).length < 9) := by
    rw [List.length_append, h8]
    have : hd.data.length ≠ 0 := by
      intro h0
      exact hne (List.length_eq_zero.mp h0)
    omega
  have e1 : (hd.data ++ suf.data).length - 8 = hd.data.length := by
    rw [List.length_append, h8]
    omega
  simp only [parseTheRock, hd1, if_neg hlen, e1, List.take_left, List.drop_left,
    hdig, hnn, Bool.and_self, if_true]

/-- C4: secondary-project resolution strips the trailing 8-digit date
from the current version to obtain the stable head, probes the three
candidates built from today, yesterday and the day before yesterday
(UTC) most recent first, and returns `head ++ date` for the first date
whose presence check succeeds (the current version when none succeeds).
Concretely, with current version `7.12.0a20260228`, today 2026-03-01,
and a probe succeeding only for `7.12.0a20260227`, it returns
`7.12.0a20260227` after issuing exactly 3 presence checks. -/
theorem c4_secondary_resolution :
    (∀ (hd suf : String) (today : Date) (probe : String → Bool),
      suf.data.length = 8 → suf.data.all Char.isDigit = true →
      hd.data ≠ [] → hd.data.all (fun c => !(c == '\n')) = true →
      parseTheRock (hd ++ suf) = some (hd, suf) ∧
      therockCandidates hd today
        = [hd ++ fmtDate today, hd ++ fmtDate (prevDay today),
           hd ++ fmtDate (prevDay (prevDay today))] ∧
      (probe (therockUrl (hd ++ fmtDate today)) = true →
        find_latest_therock_version (hd ++ suf) today probe = hd ++ fmtDate today) ∧
      (probe (therockUrl (hd ++ fmtDate today)) = false →
        probe (therockUrl (hd ++ fmtDate (prevDay today))) = true →
        find_latest_therock_version (hd ++ suf) today probe
          = hd ++ fmtDate (prevDay today)) ∧
      (probe (therockUrl (hd ++ fmtDate today)) = false →
        probe (therockUrl (hd ++ fmtDate (prevDay today))) = false →
        probe (therockUrl (hd ++ fmtDate (prevDay (prevDay today)))) = true →
        find_latest_therock_version (hd ++ suf) today probe
          = hd ++ fmtDate (prevDay (prevDay today))) ∧
      (probe (therockUrl (hd ++ fmtDate today)) = false →
        probe (therockUrl (hd ++ fmtDate (prevDay today))) = false →
        probe (therockUrl (hd ++ fmtDate (prevDay (prevDay today)))) = false →
        find_latest_therock_version (hd ++ suf) today probe = hd ++ suf)) ∧
    find_latest_therock_version "7.12.0a20260228" ⟨2026, 3, 1⟩ c4Probe
      = "7.12.0a20260227" ∧
    therockProbesIssued "7.12.0a20260228" ⟨2026, 3, 1⟩ c4Probe
      = [therockUrl "7.12.0a20260301", therockUrl "7.12.0a20260228",
         therockUrl "7.12.0a20260227"] ∧
    (therockProbesIssued "7.12.0a20260228" ⟨2026, 3, 1⟩ c4Probe).length = 3 := by
  refine ⟨?_, by decide, by decide, by decide⟩
  intro hd suf today probe h8 hdig hne hnn
  have hparse := parseTheRock_append hd suf h8 hdig hne hnn
  refine ⟨hparse, rfl, ?_, ?_, ?_, ?_⟩
  · intro h0
    simp [find_latest_therock_version, hparse, therockCandidates, List.find?, h0]
  · intro h0 h1
    simp [find_latest_therock_version, hparse, therockCandidates, List.find?, h0, h1]
  · intro h0 h1 h2
    simp [find_latest_therock_version, hparse, therockCandidates, List.find?, h0, h1, h2]
  · intro h0 h1 h2
    simp [find_latest_therock_version, hparse, therockCandidates, List.find?, h0, h1, h2]

/-- C4 witness: the generic statement applied to the concrete scenario
(head `7.12.0a`, suffix `20260228`, today 2026-03-01): the third
candidate, `7.12.0a20260227`, is returned when only its probe succeeds. -/
theorem c4_witness :
    parseTheRock ("7.12.0a" ++ "20260228") = some ("7.12.0a", "20260228") ∧
    find_latest_therock_version ("7.12.0a" ++ "20260228") ⟨2026, 3, 1⟩ c4Probe
      = "7.12.0a" ++ fmtDate (prevDay (prevDay ⟨2026, 3, 1⟩)) := by
  have h := (c4_secondary_resolution.1 "7.12.0a" "20260228" ⟨2026, 3, 1⟩ c4Probe
    (by decide) (by decide) (by decide) (by decide))
  exact ⟨h.1, h.2.2.2.2.1 (by decide) (by decide) (by decide)⟩

/-- C3: resolution failure is asymmetric.  For the primary project,
an empty parsed tag list or a probe failure on every candidate is fatal
(`none`, i.e. a non-zero process exit, with no fallback to the current
pinned version).  For the secondary project the resolver is a total
function into `String`: an unparseable current version, or probes
failing on every candidate, return the unchanged current version (the
code prints a warning and never exits non-zero there). -/
theorem c3_failure_asymmetry :
    (∀ (tagLines : List String) (content : String),
      ireeRcVersions tagLines = [] →
      find_latest_iree_with_wheel tagLines content = none) ∧
    (∀ (tagLines : List String) (content : String),
      (∀ c ∈ ireeCandidates tagLines, verify_iree_wheel content c = false) →
      find_latest_iree_with_wheel tagLines content = none) ∧
    (∀ (current : String) (today : Date) (probe : String → Bool),
      parseTheRock current = none →
      find_latest_therock_version current today probe = current) ∧
    (∀ (current hd suf : String) (today : Date) (probe : String → Bool),
      parseTheRock current = some (hd, suf) →
      (∀ c ∈ therockCandidates hd today, probe (therockUrl c) = false) →
      find_latest_therock_version current today probe = current) := by
  refine ⟨?_, ?_, ?_, ?_⟩
  · intro tagLines content h
    simp [find_latest_iree_with_wheel, h]
  · intro tagLines content h
    rw [find_latest_iree_with_wheel]
    split
    · rfl
    · rw [List.find?_eq_none]
      intro c hc
      simp [h c hc]
  · intro current today probe h
    simp [find_latest_therock_version, h]
  · intro current hd suf today probe hp h
    have hfind : (therockCandidates hd today).find? (fun c => probe (therockUrl c)) = none := by
      rw [List.find?_eq_none]
      intro c hc
      simp [h c hc]
    simp [find_latest_therock_version, hp, hfind]

/-- C3 witness: each failure mode at a concrete input — no parsed tags,
no wheel for either candidate, an unparseable TheRock version, and
probes failing for all three dates. -/
theorem c3_witness :
    find_latest_iree_with_wheel ["refs/tags/v1.0"] c2PageContent = none ∧
    find_latest_iree_with_wheel c2TagLines "" = none ∧
    find_latest_therock_version "nodate" ⟨2026, 3, 1⟩ (fun u => true) = "nodate" ∧
    find_latest_therock_version "7.12.0a20260228" ⟨2026, 3, 1⟩ (fun u => false)
      = "7.12.0a20260228" :=
  ⟨c3_failure_asymmetry.1 ["refs/tags/v1.0"] c2PageContent (by decide),
   c3_failure_asymmetry.2.1 c2TagLines "" (by decide),
   c3_failure_asymmetry.2.2.1 "nodate" ⟨2026, 3, 1⟩ (fun u => true) (by decide),
   c3_failure_asymmetry.2.2.2 "7.12.0a20260228" "7.12.0a" "20260228" ⟨2026, 3, 1⟩
     (fun u => false) (by decide) (by decide)⟩

/-- C2 (amended): primary-project resolution parses each tag line
(discarding non-matching ones), sorts ascending by the version ordinal
(a stable sort: the result is a sorted permutation of the parsed list),
takes the up-to-two highest-ordinal candidates in descending order —
exactly two when at least two rc tags parse, the single parsed tag when
only one does (see the counterexample) — probes the wheel needle built
from each candidate in turn, and returns the first candidate whose
probe succeeds.  In particular, with candidate tags
`3.10.0rc20251201`, `3.11.0rc20260301`, `3.11.0rc20260302` and a probe
succeeding only for `3.11.0rc20260301`, it returns `3.11.0rc20260301`,
not `3.11.0rc20260302`. -/
theorem c2_primary_resolution :
    (∀ (tagLines : List String) (content : String),
      List.Sorted vle (List.insertionSort vle (ireeRcVersions tagLines)) ∧
      (List.insertionSort vle (ireeRcVersions tagLines)).Perm (ireeRcVersions tagLines) ∧
      (ireeCandidates tagLines).length = min 2 (ireeRcVersions tagLines).length ∧
      List.Pairwise (flip vle) (ireeCandidates tagLines) ∧
      (∀ v ∈ ireeRcVersions tagLines,
        v ∈ ireeCandidates tagLines ∨ ∀ c ∈ ireeCandidates tagLines, vle v c) ∧
      (ireeRcVersions tagLines ≠ [] →
        find_latest_iree_with_wheel tagLines content
          = (ireeCandidates tagLines).find? (fun c => verify_iree_wheel content c))) ∧
    ireeCandidates c2TagLines = ["3.11.0rc20260302", "3.11.0rc20260301"] ∧
    find_latest_iree_with_wheel c2TagLines c2PageContent = some "3.11.0rc20260301" := by
  haveI : IsTotal String vle := ⟨fun a b => keyLE_total _ _⟩
  haveI : IsTrans String vle := ⟨fun a b c hab hbc => keyLE_trans _ _ _ hab hbc⟩
  refine ⟨?_, by decide, by decide⟩
  intro tagLines content
  have hsorted : List.Sorted vle (List.insertionSort vle (ireeRcVersions tagLines)) :=
    List.sorted_insertionSort vle (ireeRcVersions tagLines)
  have hperm : (List.insertionSort vle (ireeRcVersions tagLines)).Perm (ireeRcVersions tagLines) :=
    List.perm_insertionSort vle (ireeRcVersions tagLines)
  have hlen : (List.insertionSort vle (ireeRcVersions tagLines)).length
      = (ireeRcVersions tagLines).length := hperm.length_eq
  refine ⟨hsorted, hperm, ?_, ?_, ?_, ?_⟩
  · rw [ireeCandidates, List.length_reverse, List.length_drop, hlen]
    omega
  · exact List.pairwise_reverse.mpr (hsorted.drop)
  · intro v hv
    by_cases hc : v ∈ ireeCandidates tagLines
    · exact Or.inl hc
    · right
      intro c hcand
      have hvs : v ∈ List.insertionSort vle (ireeRcVersions tagLines) := hperm.mem_iff.mpr hv
      have hsplit := List.take_append_drop
        ((List.insertionSort vle (ireeRcVersions tagLines)).length - 2)
        (List.insertionSort vle (ireeRcVersions tagLines))
      have hpw : List.Pairwise vle
          ((List.insertionSort vle (ireeRcVersions tagLines)).take
              ((List.insertionSort vle (ireeRcVersions tagLines)).length - 2) ++
            (List.insertionSort vle (ireeRcVersions tagLines)).drop
              ((List.insertionSort vle (ireeRcVersions tagLines)).length - 2)) := by
        rw [hsplit]
        exact hsorted
      obtain ⟨-, -, hcross⟩ := List.pairwise_append.mp hpw
      have hvtake : v ∈ (List.insertionSort vle (ireeRcVersions tagLines)).take
          ((List.insertionSort vle (ireeRcVersions tagLines)).length - 2) := by
        rw [← hsplit] at hvs
        rcases List.mem_append.mp hvs with h | h
        · exact h
        · exact absurd (by rw [ireeCandidates]; exact List.mem_reverse.mpr h) hc
      have hcdrop : c ∈ (List.insertionSort vle (ireeRcVersions tagLines)).drop
          ((List.insertionSort vle (ireeRcVersions tagLines)).length - 2) := by
        rw [ireeCandidates] at hcand
        exact List.mem_reverse.mp hcand
      exact hcross v hvtake c hcdrop
  · intro hne
    rw [find_latest_iree_with_wheel, if_neg hne]

/-- C2 counterexample: with a single parsed rc tag the candidate list
has exactly one element, not "exactly the two highest-ordinal
candidates". -/
theorem c2_counterexample :
    ireeRcVersions ["refs/tags/iree-1.0.0rc1"] ≠ [] ∧
    ireeCandidates ["refs/tags/iree-1.0.0rc1"] = ["1.0.0rc1"] ∧
    (ireeCandidates ["refs/tags/iree-1.0.0rc1"]).length ≠ 2 := by decide

/-- C2 witness: the generic statement applied to the concrete tag set
of the spec scenario, plus the concrete fallback selection. -/
theorem c2_witness :
    find_latest_iree_with_wheel c2TagLines c2PageContent
      = (ireeCandidates c2TagLines).find? (fun c => verify_iree_wheel c2PageContent c) ∧
    (∀ v ∈ ireeRcVersions c2TagLines,
      v ∈ ireeCandidates c2TagLines ∨ ∀ c ∈ ireeCandidates c2TagLines, vle v c) ∧
    find_latest_iree_with_wheel c2TagLines c2PageContent = some "3.11.0rc20260301" :=
  ⟨((c2_primary_resolution.1 c2TagLines c2PageContent).2.2.2.2.2) (by decide),
   (c2_primary_resolution.1 c2TagLines c2PageContent).2.2.2.2.1,
   c2_primary_resolution.2.2⟩

theorem dictEq_sections_subset (d1 d2 : TomlDoc) (h : dictEq d1 d2 = true)
    (s : String) (hs : d2.sections.contains s = true) :
    d1.sections.contains s = true := by
  simp only [dictEq, Bool.and_eq_true] at h
  obtain ⟨⟨⟨-, h2⟩, -⟩, -⟩ := h
  rw [List.all_eq_true] at h2
  exact h2 s (by simpa using hs)

/-- C8: the build-and-test fingerprint gate compares the current config
and the cached fingerprint structurally — by equality of the two parsed
records — not byte-for-byte: it fails exactly when the fingerprint is
absent or the parsed records differ, and two config files that differ
textually (comments, blank lines, key order, spacing) but parse to
equal records pass the gate. -/
theorem c8_structural_gate :
    (∀ cur : String, validate_config none cur = false) ∧
    (∀ (cur cached : String) (d1 d2 : TomlDoc),
      parseToml cur = some d1 → parseToml cached = some d2 →
      (validate_config (some cached) cur = true ↔ dictEq d1 d2 = true)) ∧
    cfgTextA ≠ cfgTextB ∧
    validate_config (some cfgTextB) cfgTextA = true ∧
    validate_config (some cfgTextC) cfgTextA = false := by
  refine ⟨fun cur => rfl, ?_, by decide, by decide, by decide⟩
  intro cur cached d1 d2 h1 h2
  simp [validate_config, h1, h2]

/-- C8 witness: the structural-equality characterization applied to two
concrete, textually different config files that parse to equal records,
plus the absent-fingerprint case. -/
theorem c8_witness :
    validate_config (some cfgTextB) cfgTextA = true ∧
    validate_config none cfgTextA = false :=
  ⟨(c8_structural_gate.2.1 cfgTextA cfgTextB
      ⟨["versions"],
       [(("versions", "hip_run_id"), "123"),
        (("versions", "iree_git_tag"), "iree-3.10.0rc20251201")]⟩
      ⟨["versions"],
       [(("versions", "iree_git_tag"), "iree-3.10.0rc20251201"),
        (("versions", "hip_run_id"), "123")]⟩
      (by decide) (by decide)).mpr (by decide),
   c8_structural_gate.1 cfgTextA⟩

/-- C1: the ConfigFingerprint invariant.  A setup run that fails before
`RESET` (the config does not load) leaves the prior cache state — and
with it the prior fingerprint — untouched; a setup run that fails at
any stage after `RESET` leaves no fingerprint (the prior one having
been deleted together with the cache directory); the run exits
successfully iff the config loads and every stage succeeds, and only
then is the fingerprint written (as a copy of the config used).  After
any failed setup run, a subsequent build-and-test invocation with the
same config fails the fingerprint-validation gate, provided any
pre-existing fingerprint was itself left by a successful setup run
(i.e. loads with a `[versions]` table). -/
theorem c1_fingerprint_invariant (st : PebbleState) (configText : String)
    (stages : List Bool) :
    (setupLoad configText = none → run_setup st configText stages = (st, false)) ∧
    (setupLoad configText ≠ none → stages.all (fun b => b) = false →
      run_setup st configText stages = (⟨none⟩, false)) ∧
    ((run_setup st configText stages).2 = true ↔
      (setupLoad configText ≠ none ∧ stages.all (fun b => b) = true)) ∧
    ((run_setup st configText stages).2 = true →
      (run_setup st configText stages).1.fingerprint = some configText) ∧
    ((run_setup st configText stages).2 = false →
      (∀ f, st.fingerprint = some f → setupLoad f ≠ none) →
      validate_config (run_setup st configText stages).1.fingerprint configText = false) := by
  cases hload : setupLoad configText with
  | none =>
    have hrun : run_setup st configText stages = (st, false) := by
      simp [run_setup, hload]
    refine ⟨fun _ => hrun, fun hne _ => absurd rfl hne, ?_, ?_, ?_⟩
    · rw [hrun]
      simp
    · rw [hrun]
      intro h
      cases h
    · rw [hrun]
      intro _ hwf
      cases hfp : st.fingerprint with
      | none => rfl
      | some f =>
        have hf := hwf f hfp
        rw [validate_config]
        cases hct : parseToml configText with
        | none => rfl
        | some d =>
          have hnover : "versions" ∉ d.sections := by
            rw [setupLoad, hct] at hload
            simpa using hload
          cases hpf : parseToml f with
          | none =>
            exact absurd (by rw [setupLoad, hpf]) hf
          | some df =>
            have hver : "versions" ∈ df.sections := by
              simp [setupLoad, hpf] at hf
              exact hf
            show dictEq d df = false
            by_contra hcon
            rw [Bool.not_eq_false] at hcon
            have := dictEq_sections_subset d df hcon "versions" (by simpa using hver)
            exact hnover (by simpa using this)
  | some d =>
    cases hstages : stages.all (fun b => b) with
    | false =>
      have hrun : run_setup st configText stages = (⟨none⟩, false) := by
        simp [run_setup, hload, hstages]
      refine ⟨?_, fun _ _ => hrun, ?_, ?_, ?_⟩
      · intro h
        simp at h
      · rw [hrun]
        simp
      · rw [hrun]
        intro h
        cases h
      · rw [hrun]
        intro _ _
        rfl
    | true =>
      have hrun : run_setup st configText stages = (⟨some configText⟩, true) := by
        simp [run_setup, hload, hstages]
      refine ⟨?_, ?_, ?_, ?_, ?_⟩
      · intro h
        simp at h
      · intro _ h
        simp at h
      · rw [hrun]
        simp
      · rw [hrun]
        intro _
        rfl
      · rw [hrun]
        intro h
        cases h

/-- C1 witness: a pre-RESET failure (malformed config) keeps the prior
fingerprint; a stage failure after RESET wipes it; the subsequent gate
then fails; a fully successful run writes the fingerprint. -/
theorem c1_witness :
    run_setup ⟨some cfgTextA⟩ "???" [true, true] = (⟨some cfgTextA⟩, false) ∧
    run_setup ⟨some cfgTextA⟩ cfgTextA [true, false] = (⟨none⟩, false) ∧
    validate_config (run_setup ⟨some cfgTextA⟩ cfgTextA [true, false]).1.fingerprint
      cfgTextA = false ∧
    (run_setup ⟨some cfgTextA⟩ cfgTextA [true, true]).1.fingerprint = some cfgTextA :=
  ⟨(c1_fingerprint_invariant ⟨some cfgTextA⟩ "???" [true, true]).1 (by decide),
   (c1_fingerprint_invariant ⟨some cfgTextA⟩ cfgTextA [true, false]).2.1
     (by decide) (by decide),
   (c1_fingerprint_invariant ⟨some cfgTextA⟩ cfgTextA [true, false]).2.2.2.2
     (by decide)
     (fun f hf => by
       injection hf with h
       rw [← h]
       decide),
   (c1_fingerprint_invariant ⟨some cfgTextA⟩ cfgTextA [true, true]).2.2.2.1 (by decide)⟩
